import Mathlib

set_option maxRecDepth 4000

/-!
Verification of the Hybrid Discovery Engine of `mcp-skillkit`
(`src/mcp_skills/services/indexing_engine.py`), as a shallow embedding.

The engine keeps two stores: a Vector Index (ChromaDB collection, an
external keyed store: one live vector per id, `add` writes under the
skill id) and a Relationship Graph (NetworkX `DiGraph`: at most one
directed edge per ordered pair, `add_edge` auto-creates missing
endpoint nodes, `neighbors` returns successors).  External
collaborators (the ChromaDB query endpoint, the skill-discovery
manager) are modelled as function parameters.
-/

namespace MCPSkills

/-- The `Skill` dataclass of `services/skill_manager.py` (the
`file_path` field is a filesystem path, kept as a plain string). -/
structure Skill where
  id : String
  name : String
  description : String
  instructions : String
  category : String
  tags : List String
  dependencies : List String
  examples : List String
  file_path : String
  repo_id : String
deriving Repr, DecidableEq

/-- Metadata record written next to each vector in `index_skill`
(`skill_id`, `name`, `category`, comma-joined `tags`, `repo_id`). -/
structure VecMetadata where
  skill_id : String
  name : String
  category : String
  tags : String
  repo_id : String
deriving Repr, DecidableEq

/-- Insert-or-overwrite into an insertion-ordered keyed association:
overwrite in place when the key is live, append otherwise.  This is
the write discipline shared by the ChromaDB collection (one live
vector per id), the NetworkX node dict, and Python dict assignment. -/
def upsertKeyed {α β : Type} [DecidableEq α] (l : List (α × β)) (k : α) (b : β) :
    List (α × β) :=
  if k ∈ l.map Prod.fst then
    l.map (fun p => if p.1 = k then (k, b) else p)
  else
    l ++ [(k, b)]

/-- The Vector Index contents: an insertion-ordered association of
skill id to (document, metadata).  Models the external ChromaDB
collection contract: exactly one live vector per id. -/
abbrev Collection := List (String × String × VecMetadata)

/-- Write a document under an id: overwrite in place when the id is
live, append otherwise (one live vector per skill id). -/
def colAdd (c : Collection) (id doc : String) (md : VecMetadata) : Collection :=
  upsertKeyed c id (doc, md)

/-- Number of live vectors, the collection's `count()`. -/
def colCount (c : Collection) : Nat := c.length

/-- The ids of the live vectors, in insertion order. -/
def colIds (c : Collection) : List String := c.map Prod.fst

/-- Node attributes cached at index time by `index_skill`
(`add_node(skill.id, name=…, category=…, tags=…)`). -/
structure NodeData where
  name : String
  category : String
  tags : List String
deriving Repr, DecidableEq

/-- The NetworkX `DiGraph`: insertion-ordered nodes (a node created
implicitly by `add_edge` carries no attribute data, hence `none`) and
directed edges `(source, target, relation_type)`, at most one edge per
ordered pair. -/
structure Graph where
  nodes : List (String × Option NodeData)
  edges : List (String × String × String)
deriving Repr, DecidableEq

/-- The empty graph (`nx.DiGraph()` / after `graph.clear()`). -/
def Graph.empty : Graph := ⟨[], []⟩

/-- Node ids currently in the graph, insertion order. -/
def Graph.nodeIds (g : Graph) : List String := g.nodes.map Prod.fst

/-- Membership test `skill_id in self.graph`. -/
def Graph.hasNode (g : Graph) (id : String) : Prop := id ∈ g.nodeIds

instance (g : Graph) (id : String) : Decidable (g.hasNode id) :=
  inferInstanceAs (Decidable (id ∈ g.nodeIds))

/-- `graph.add_node(id, …)`: overwrite the node's attributes if it
exists (keeping its position), append it otherwise. -/
def Graph.add_node (g : Graph) (id : String) (d : NodeData) : Graph :=
  { g with nodes := upsertKeyed g.nodes id (some d) }

/-- NetworkX auto-creates a referenced endpoint that is not yet a
node, with an empty attribute dict. -/
def Graph.ensureNode (g : Graph) (id : String) : Graph :=
  if g.hasNode id then g else { g with nodes := g.nodes ++ [(id, none)] }

/-- `graph.add_edge(u, v, relation_type=rel)`: auto-create missing
endpoints, then overwrite the `(u, v)` edge's attributes if the edge
exists, append it otherwise. -/
def Graph.add_edge (g : Graph) (u v rel : String) : Graph :=
  let g1 := (g.ensureNode u).ensureNode v
  if g1.edges.any (fun e => e.1 = u ∧ e.2.1 = v) then
    { g1 with edges := g1.edges.map (fun e => if e.1 = u ∧ e.2.1 = v then (u, v, rel) else e) }
  else
    { g1 with edges := g1.edges ++ [(u, v, rel)] }

/-- `graph.neighbors(u)` on a `DiGraph`: the successors of `u`, in
edge insertion order. -/
def Graph.successors (g : Graph) (u : String) : List String :=
  (g.edges.filter (fun e => e.1 = u)).map (fun e => e.2.1)

/-- Engine state owned by the Hybrid Discovery Engine: the Vector
Index contents and the Relationship Graph. -/
structure EngineState where
  collection : Collection
  graph : Graph

/-- The engine state right after initialization (empty stores). -/
def EngineState.empty : EngineState := ⟨[], Graph.empty⟩

/-- Python's `s[:n]` slice: the first `n` code points. -/
def strTake (s : String) (n : Nat) : String := ⟨s.toList.take n⟩

/-- Python's `not s.strip()` test: the string is empty or
whitespace-only. -/
def isBlank (s : String) : Bool := s.toList.all (fun c => c.isWhitespace)

/-- `IndexingEngine._create_embeddable_text`: name, description, first
500 characters of instructions, and space-joined tags, space-separated. -/
def create_embeddable_text (s : Skill) : String :=
  s.name ++ " " ++ s.description ++ " " ++ (strTake s.instructions 500) ++ " "
    ++ (String.intercalate " " s.tags)

/-- `IndexingEngine.extract_relationships`: the `depends_on` triples
in declared order, then a `same_category` triple per matching other
node, then a `shared_tag` triple per other node with overlapping tags
(accumulated by appending, as in the source's three loops). -/
def extract_relationships (g : Graph) (s : Skill) : List (String × String × String) :=
  let r1 := s.dependencies.foldl
    (fun acc dep => acc ++ [(s.id, "depends_on", dep)]) []
  let r2 := g.nodes.foldl
    (fun acc p =>
      if p.1 ≠ s.id ∧ (p.2.map NodeData.category) = some s.category then
        acc ++ [(s.id, "same_category", p.1)]
      else acc) r1
  let r3 := g.nodes.foldl
    (fun acc p =>
      if p.1 ≠ s.id ∧ s.tags.any (fun t => ((p.2.map NodeData.tags).getD []).contains t) then
        acc ++ [(s.id, "shared_tag", p.1)]
      else acc) r2
  r3

/-- `IndexingEngine.index_skill`: build the embeddable text, write the
document and metadata to the collection under the skill id, add the
graph node with cached attributes, then add one edge per extracted
relationship.  (The source has no empty-text guard: the write happens
unconditionally.) -/
def index_skill (st : EngineState) (s : Skill) : EngineState :=
  let text := create_embeddable_text s
  let md : VecMetadata :=
    ⟨s.id, s.name, s.category, String.intercalate "," s.tags, s.repo_id⟩
  let c1 := colAdd st.collection s.id text md
  let g1 := st.graph.add_node s.id ⟨s.name, s.category, s.tags⟩
  let rels := extract_relationships g1 s
  let g2 := rels.foldl (fun g r => g.add_edge r.1 r.2.2 r.2.1) g1
  ⟨c1, g2⟩

/-- `IndexStats` (the wall-clock `last_indexed` timestamp is outside
the model). -/
structure IndexStats where
  total_skills : Nat
  vector_store_size : Nat
  graph_nodes : Nat
  graph_edges : Nat
deriving Repr, DecidableEq

/-- `IndexingEngine.get_stats` on the model state. -/
def get_stats (st : EngineState) : IndexStats :=
  ⟨colCount st.collection, colCount st.collection * 2048,
    st.graph.nodes.length, st.graph.edges.length⟩

/-- The skill-discovery collaborator (`SkillManager`), modelled by the
snapshot its `discover_skills()` scan returns. -/
structure SkillSource where
  skills : List Skill

/-- `IndexingEngine.reindex_all`: raise when no skill manager is
configured; otherwise clear both stores when `force`, then run
`index_skill` over every discovered skill and return the stats. -/
def reindex_all (mgr : Option SkillSource) (force : Bool) (st : EngineState) :
    Except String (EngineState × IndexStats) :=
  match mgr with
  | none => Except.error
      "SkillManager not set. Pass skill_manager to __init__() or set self.skill_manager before calling reindex_all()"
  | some m =>
      let st1 := if force then EngineState.empty else st
      let st2 := m.skills.foldl index_skill st1
      Except.ok (st2, get_stats st2)

/-- Fuel bound for the BFS loops: the loop pops one queue entry per
iteration, visits at most one new node per iteration, and only
enqueues edge targets, so `(edges + 2)²` iterations always suffice. -/
def bfsFuel (g : Graph) : Nat := (g.edges.length + 2) * (g.edges.length + 2)

/-- The BFS loop of `IndexingEngine._graph_search`: pop `(node,
depth)` from the queue front, skip if visited or beyond `maxDepth`,
otherwise record the node with score `1 / (depth + 1)` and enqueue its
not-yet-visited successors at `depth + 1` (only while `depth <
maxDepth`). -/
def bfsAux (g : Graph) (maxDepth : Nat) :
    Nat → List (String × Nat) → List String → List (String × Rat) → List (String × Rat)
  | 0, _, _, acc => acc
  | _ + 1, [], _, acc => acc
  | fuel + 1, (u, d) :: rest, visited, acc =>
    if visited.contains u ∨ maxDepth < d then
      bfsAux g maxDepth fuel rest visited acc
    else
      let visited1 := u :: visited
      let acc1 := acc ++ [(u, (1 : Rat) / ((d : Rat) + 1))]
      let enq :=
        if d < maxDepth then
          (g.successors u).filter (fun n => ¬ visited1.contains n)
        else []
      bfsAux g maxDepth fuel (rest ++ enq.map (fun n => (n, d + 1))) visited1 acc1

/-- `IndexingEngine._graph_search`: empty result when the seed is not
a graph node, otherwise the BFS records starting from the seed at
depth 0. -/
def graph_search (g : Graph) (seed : String) (maxDepth : Nat) : List (String × Rat) :=
  if g.hasNode seed then bfsAux g maxDepth (bfsFuel g) [(seed, 0)] [] [] else []

/-- The BFS loop of `IndexingEngine.get_related_skills`: identical
traversal, but collects visited node ids and skips the seed. -/
def relatedAux (g : Graph) (maxDepth : Nat) (seed : String) :
    Nat → List (String × Nat) → List String → List String → List String
  | 0, _, _, acc => acc
  | _ + 1, [], _, acc => acc
  | fuel + 1, (u, d) :: rest, visited, acc =>
    if visited.contains u ∨ maxDepth < d then
      relatedAux g maxDepth seed fuel rest visited acc
    else
      let visited1 := u :: visited
      let acc1 := if u ≠ seed then acc ++ [u] else acc
      let enq :=
        if d < maxDepth then
          (g.successors u).filter (fun n => ¬ visited1.contains n)
        else []
      relatedAux g maxDepth seed fuel (rest ++ enq.map (fun n => (n, d + 1))) visited1 acc1

/-- `IndexingEngine.get_related_skills`: empty when the seed is
missing from the graph, otherwise resolve every related id through
the skill-discovery collaborator (dropping unresolvable ids), and
return `[]` when no collaborator is configured. -/
def get_related_skills (g : Graph) (mgr : Option (String → Option Skill))
    (skill_id : String) (maxDepth : Nat) : List Skill :=
  if g.hasNode skill_id then
    match mgr with
    | some load =>
        (relatedAux g maxDepth skill_id (bfsFuel g) [(skill_id, 0)] [] []).filterMap load
    | none => []
  else []

/-- Whether `tgt` is reachable from `src` along at most `d` outgoing
edges. -/
def reachableWithin (g : Graph) : Nat → String → String → Bool
  | 0, src, tgt => src == tgt
  | d + 1, src, tgt =>
      src == tgt || (g.successors src).any (fun m => reachableWithin g d m tgt)

/-- Case-insensitive substring test, Python's
`toolchain.lower() in tag.lower()`. -/
def strContains (hay needle : String) : Bool :=
  hay.toList.tails.any (fun t => needle.toList.isPrefixOf t)

/-- A raw ChromaDB query hit: id, L2 distance, stored metadata. -/
structure ChromaHit where
  id : String
  distance : Rat
  metadata : VecMetadata

/-- The external ChromaDB query endpoint (`collection.query`), which
may raise: arguments are the query text, `n_results`, and the optional
category `where`-filter. -/
abbrev ChromaQuery := String → Nat → Option String → Except String (List ChromaHit)

/-- One `_vector_search` result record. -/
structure VecResult where
  skill_id : String
  score : Rat
  metadata : VecMetadata

/-- The `try`-block of `IndexingEngine._vector_search`: query ChromaDB
for `min(top_k, count)` hits with the category filter, convert each L2
distance to the similarity `1 / (1 + distance)`, and drop hits whose
comma-joined metadata tags contain no case-insensitive substring match
for the requested toolchain. -/
def vector_search_body (c : Collection) (cq : ChromaQuery) (query : String)
    (toolchain category : Option String) (top_k : Nat) :
    Except String (List VecResult) := do
  let hits ← cq query (min top_k (colCount c)) category
  pure (hits.foldl
    (fun acc h =>
      let similarity := (1 : Rat) / (1 + h.distance)
      match toolchain with
      | some tc =>
          let tags := if h.metadata.tags = "" then [] else h.metadata.tags.splitOn ","
          if tags.any (fun tag => strContains tag.toLower tc.toLower) then
            acc ++ [⟨h.id, similarity, h.metadata⟩]
          else acc
      | none => acc ++ [⟨h.id, similarity, h.metadata⟩])
    [])

/-- `IndexingEngine._vector_search`: the body with its exception
handler — any failure degrades to the empty contribution. -/
def vector_search (c : Collection) (cq : ChromaQuery) (query : String)
    (toolchain category : Option String) (top_k : Nat) : List VecResult :=
  match vector_search_body c cq query toolchain category top_k with
  | Except.ok l => l
  | Except.error _ => []

/-- The graph phase of `search` viewed through its exception handler:
the phase body (concretely `graph_search` on the engine's graph, which
cannot fail; abstractly any computation that may raise). -/
abbrev GraphPhase := String → Nat → Except String (List (String × Rat))

/-- `IndexingEngine._graph_search`'s exception handler: any failure of
the phase body degrades to the empty contribution. -/
def graph_phase_caught (gp : GraphPhase) (seed : String) (maxDepth : Nat) :
    List (String × Rat) :=
  match gp seed maxDepth with
  | Except.ok l => l
  | Except.error _ => []

/-- `IndexingEngine.VECTOR_WEIGHT`. -/
def VECTOR_WEIGHT : Rat := 7 / 10

/-- `IndexingEngine.GRAPH_WEIGHT`. -/
def GRAPH_WEIGHT : Rat := 3 / 10

/-- Insert-or-overwrite into the `score_map` dict, keeping the key's
first-insertion position (Python dict update semantics). -/
def upsertScore (m : List (String × Rat × Rat)) (id : String) (v : Rat × Rat) :
    List (String × Rat × Rat) :=
  upsertKeyed m id v

/-- The `score_map` of `_combine_results`: the vector loop stores
`(score, 0)` per vector hit, then the graph loop stores
`(existing vector score, graph score)` per graph hit. -/
def buildScoreMap (vres gres : List (String × Rat)) : List (String × Rat × Rat) :=
  let m1 := vres.foldl (fun m p => upsertScore m p.1 (p.2, 0)) []
  gres.foldl
    (fun m p => upsertScore m p.1 (((m.lookup p.1).getD (0, 0)).1, p.2)) m1

/-- The match-type rule of `_combine_results`. -/
def matchTypeOf (v g : Rat) : String :=
  if 0 < v ∧ 0 < g then "hybrid" else if 0 < v then "vector" else "graph"

/-- The fused `(id, hybrid_score, match_type)` entries of
`_combine_results`, before resolution through the skill manager. -/
def hybridEntries (vres gres : List (String × Rat)) : List (String × Rat × String) :=
  (buildScoreMap vres gres).map
    (fun p => (p.1, VECTOR_WEIGHT * p.2.1 + GRAPH_WEIGHT * p.2.2, matchTypeOf p.2.1 p.2.2))

/-- A scored search result (`ScoredSkill`). -/
structure ScoredSkill where
  skill : Skill
  score : Rat
  match_type : String

/-- The point lookup of the skill-discovery collaborator
(`skill_manager.load_skill`), which may raise. -/
abbrev LoadE := String → Except String (Option Skill)

/-- Stable descending insertion by score (Python's stable
`sort(key=score, reverse=True)`). -/
def insertDesc (x : ScoredSkill) : List ScoredSkill → List ScoredSkill
  | [] => [x]
  | y :: ys => if y.score < x.score then x :: y :: ys else y :: insertDesc x ys

/-- Sort descending by score, stably. -/
def sortByScoreDesc (l : List ScoredSkill) : List ScoredSkill :=
  l.foldr insertDesc []

/-- `IndexingEngine._combine_results`: fuse the two phases') scores,
resolve each id through the skill manager (silently dropping ids that
do not resolve, and everything when no manager is configured), and
sort descending by score.  Collaborator exceptions propagate to the
caller (`search`'s own handler). -/
def combine_resultsE (mgr : Option LoadE) (vres gres : List (String × Rat)) :
    Except String (List ScoredSkill) := do
  let combined ← (hybridEntries vres gres).foldlM
    (fun (acc : List ScoredSkill) e =>
      match mgr with
      | some load => do
          match (← load e.1) with
          | some sk => pure (acc ++ [⟨sk, e.2.1, e.2.2⟩])
          | none => pure acc
      | none => pure acc)
    []
  pure (sortByScoreDesc combined)

/-- `IndexingEngine._apply_filters`: category exact match, then
toolchain case-insensitive tag substring match. -/
def apply_filters (results : List ScoredSkill) (toolchain category : Option String) :
    List ScoredSkill :=
  let f1 := match category with
    | some c => results.filter (fun r => r.skill.category = c)
    | none => results
  match toolchain with
  | some tc => f1.filter (fun r => r.skill.tags.any (fun tag => strContains tag.toLower tc.toLower))
  | none => f1

/-- The `try`-block of `IndexingEngine.search`: vector phase
(over-fetching `top_k * 2`), graph phase seeded from the top vector
hit (empty when the vector phase returned nothing), fusion and
resolution, post-filters, truncation to `top_k`. -/
def search_try (st : EngineState) (cq : ChromaQuery) (gp : GraphPhase) (mgr : Option LoadE)
    (query : String) (toolchain category : Option String) (top_k : Nat) :
    Except String (List ScoredSkill) := do
  let vres := vector_search st.collection cq query toolchain category (top_k * 2)
  let gres := match vres with
    | [] => []
    | v0 :: _ => graph_phase_caught gp v0.skill_id 2
  let combined ← combine_resultsE mgr (vres.map fun r => (r.skill_id, r.score)) gres
  pure ((apply_filters combined toolchain category).take top_k)

/-- `IndexingEngine.search`: empty-query short-circuit, then the body
with its exception handler — a total failure returns the empty list
rather than raising. -/
def search (st : EngineState) (cq : ChromaQuery) (gp : GraphPhase) (mgr : Option LoadE)
    (query : String) (toolchain category : Option String) (top_k : Nat) :
    Except String (List ScoredSkill) :=
  if isBlank query then Except.ok []
  else
    match search_try st cq gp mgr query toolchain category top_k with
    | Except.ok l => Except.ok l
    | Except.error _ => Except.ok []

/-- Whether an exceptions-as-values computation finished normally. -/
def isOkE {ε α : Type} : Except ε α → Bool
  | Except.ok _ => true
  | Except.error _ => false

/-! Concrete fixtures used by counterexamples and witnesses. -/

/-- The all-empty-fields skill of the repository's own regression test
(`test_index_skill_with_empty_embeddable_text_skips_indexing` in
`tests/test_vector_store_errors.py`). -/
def emptyFieldsSkill : Skill :=
  ⟨"test/empty", "", "", "", "testing", [], [], [], "/tmp/test/SKILL.md", "test-repo"⟩

/-- Fixture skill `A(category=x, tags=[t1])`. -/
def skA : Skill := ⟨"A", "a", "da", "ia", "x", ["t1"], [], [], "p", "r"⟩

/-- Fixture skill `B(category=x, tags=[t1, t2])`. -/
def skB : Skill := ⟨"B", "b", "db", "ib", "x", ["t1", "t2"], [], [], "p", "r"⟩

/-- Fixture skill `C(category=y, tags=[t2])`. -/
def skC : Skill := ⟨"C", "c", "dc", "ic", "y", ["t2"], [], [], "p", "r"⟩

/-- Engine state after indexing `A`, `B`, `C` in that order from
scratch. -/
def st3 : EngineState :=
  index_skill (index_skill (index_skill EngineState.empty skA) skB) skC

/-- A skill whose single dependency names a skill that does not exist
anywhere in the source. -/
def ghostDepSkill : Skill :=
  ⟨"D", "d", "dd", "idd", "z", [], ["ghost"], [], "p", "r"⟩

/-! Helper lemmas about the keyed upsert. -/

lemma map_fst_overwrite {α β : Type} [DecidableEq α] (l : List (α × β)) (k : α) (b : β) :
    (l.map (fun p => if p.1 = k then (k, b) else p)).map Prod.fst = l.map Prod.fst := by
  induction l with
  | nil => rfl
  | cons p t ih => by_cases h : p.1 = k <;> simp [h, ih]

lemma upsertKeyed_keys {α β : Type} [DecidableEq α] (l : List (α × β)) (k : α) (b : β) :
    (upsertKeyed l k b).map Prod.fst =
      if k ∈ l.map Prod.fst then l.map Prod.fst else l.map Prod.fst ++ [k] := by
  unfold upsertKeyed
  by_cases h : k ∈ l.map Prod.fst
  · rw [if_pos h, if_pos h]
    exact map_fst_overwrite l k b
  · rw [if_neg h, if_neg h]
    simp

lemma upsertKeyed_length {α β : Type} [DecidableEq α] (l : List (α × β)) (k : α) (b : β) :
    (upsertKeyed l k b).length =
      if k ∈ l.map Prod.fst then l.length else l.length + 1 := by
  unfold upsertKeyed
  by_cases h : k ∈ l.map Prod.fst
  · rw [if_pos h, if_pos h, List.length_map]
  · rw [if_neg h, if_neg h]
    simp

lemma upsertKeyed_keys_nodup {α β : Type} [DecidableEq α] (l : List (α × β)) (k : α) (b : β)
    (h : (l.map Prod.fst).Nodup) : ((upsertKeyed l k b).map Prod.fst).Nodup := by
  rw [upsertKeyed_keys]
  by_cases hm : k ∈ l.map Prod.fst
  · rwa [if_pos hm]
  · rw [if_neg hm]
    simp [List.nodup_append, h, hm]

/-! Other small helper lemmas. -/

lemma apply_filters_nil (toolchain category : Option String) :
    apply_filters [] toolchain category = [] := by
  unfold apply_filters
  cases category <;> cases toolchain <;> simp

lemma combine_resultsE_failing_loader (e : String) (vres gres : List (String × Rat)) :
    combine_resultsE (some (fun _ => Except.error e)) vres gres = Except.ok [] ∨
    combine_resultsE (some (fun _ => Except.error e)) vres gres = Except.error e := by
  unfold combine_resultsE
  cases h : hybridEntries vres gres with
  | nil => left; rfl
  | cons a l => right; rfl

/-! Folding an append-only loop is mapping (plus filtering when the
loop body is guarded). -/

lemma foldl_append_map {α β : Type} (l : List α) (f : α → β) (init : List β) :
    l.foldl (fun acc x => acc ++ [f x]) init = init ++ l.map f := by
  induction l generalizing init with
  | nil => simp
  | cons x t ih => simp [ih]

lemma category_loop_eq (s : Skill) (nodes : List (String × Option NodeData))
    (init : List (String × String × String)) :
    nodes.foldl
      (fun acc p =>
        if p.1 ≠ s.id ∧ (p.2.map NodeData.category) = some s.category then
          acc ++ [(s.id, "same_category", p.1)]
        else acc) init =
      init ++ (nodes.filter (fun p =>
          decide (p.1 ≠ s.id ∧ (p.2.map NodeData.category) = some s.category))).map
        (fun p => (s.id, "same_category", p.1)) := by
  induction nodes generalizing init with
  | nil => simp
  | cons p t ih =>
    rw [List.foldl_cons]
    by_cases h : p.1 ≠ s.id ∧ (p.2.map NodeData.category) = some s.category
    · rw [if_pos h, ih, List.filter_cons_of_pos (by simpa using h), List.map_cons]
      simp
    · rw [if_neg h, ih, List.filter_cons_of_neg (by simpa using h)]

lemma tag_loop_eq (s : Skill) (nodes : List (String × Option NodeData))
    (init : List (String × String × String)) :
    nodes.foldl
      (fun acc p =>
        if p.1 ≠ s.id ∧ s.tags.any (fun t => ((p.2.map NodeData.tags).getD []).contains t) then
          acc ++ [(s.id, "shared_tag", p.1)]
        else acc) init =
      init ++ (nodes.filter (fun p =>
          decide (p.1 ≠ s.id ∧
            s.tags.any (fun t => ((p.2.map NodeData.tags).getD []).contains t)))).map
        (fun p => (s.id, "shared_tag", p.1)) := by
  induction nodes generalizing init with
  | nil => simp
  | cons p t ih =>
    rw [List.foldl_cons]
    by_cases h : p.1 ≠ s.id ∧ s.tags.any (fun t => ((p.2.map NodeData.tags).getD []).contains t)
    · rw [if_pos h, ih, List.filter_cons_of_pos (by simpa using h), List.map_cons]
      simp
    · rw [if_neg h, ih, List.filter_cons_of_neg (by simpa using h)]

/-- `extract_relationships` in closed form: dependencies mapped in
order, then the category-matching nodes, then the tag-sharing nodes. -/
lemma extract_relationships_eq (g : Graph) (s : Skill) :
    extract_relationships g s =
      s.dependencies.map (fun dep => (s.id, "depends_on", dep))
      ++ (g.nodes.filter (fun p =>
            decide (p.1 ≠ s.id ∧ (p.2.map NodeData.category) = some s.category))).map
          (fun p => (s.id, "same_category", p.1))
      ++ (g.nodes.filter (fun p =>
            decide (p.1 ≠ s.id ∧
              s.tags.any (fun t => ((p.2.map NodeData.tags).getD []).contains t)))).map
          (fun p => (s.id, "shared_tag", p.1)) := by
  show (g.nodes.foldl _ (g.nodes.foldl _ (s.dependencies.foldl _ [])) = _)
  rw [foldl_append_map, category_loop_eq, tag_loop_eq]
  simp [List.append_assoc]

/-! Node-set bookkeeping for the graph mutators. -/

lemma mem_upsertKeyed_keys {α β : Type} [DecidableEq α] (l : List (α × β)) (k x : α) (b : β) :
    x ∈ (upsertKeyed l k b).map Prod.fst ↔ x ∈ l.map Prod.fst ∨ x = k := by
  rw [upsertKeyed_keys]
  by_cases h : k ∈ l.map Prod.fst
  · rw [if_pos h]
    constructor
    · exact fun hx => Or.inl hx
    · rintro (hx | rfl)
      · exact hx
      · exact h
  · rw [if_neg h]
    simp

lemma ensureNode_nodeIds (g : Graph) (id : String) :
    (g.ensureNode id).nodeIds = if g.hasNode id then g.nodeIds else g.nodeIds ++ [id] := by
  unfold Graph.ensureNode
  by_cases h : g.hasNode id
  · rw [if_pos h, if_pos h]
  · rw [if_neg h, if_neg h]
    simp [Graph.nodeIds]

lemma mem_ensureNode_nodeIds (g : Graph) (id x : String) :
    x ∈ (g.ensureNode id).nodeIds ↔ x ∈ g.nodeIds ∨ x = id := by
  rw [ensureNode_nodeIds]
  by_cases h : g.hasNode id
  · rw [if_pos h]
    constructor
    · exact fun hx => Or.inl hx
    · rintro (hx | rfl)
      · exact hx
      · exact h
  · rw [if_neg h]
    simp

lemma ensureNode_nodeIds_nodup (g : Graph) (id : String) (h : g.nodeIds.Nodup) :
    (g.ensureNode id).nodeIds.Nodup := by
  rw [ensureNode_nodeIds]
  by_cases hm : g.hasNode id
  · rwa [if_pos hm]
  · rw [if_neg hm]
    simp [List.nodup_append, h]
    exact hm

lemma add_edge_nodes (g : Graph) (u v rel : String) :
    (g.add_edge u v rel).nodes = ((g.ensureNode u).ensureNode v).nodes := by
  unfold Graph.add_edge
  by_cases h : ((g.ensureNode u).ensureNode v).edges.any (fun e => e.1 = u ∧ e.2.1 = v)
  · rw [if_pos h]
  · rw [if_neg h]

lemma add_edge_nodeIds (g : Graph) (u v rel : String) :
    (g.add_edge u v rel).nodeIds = ((g.ensureNode u).ensureNode v).nodeIds := by
  unfold Graph.nodeIds
  rw [add_edge_nodes]

lemma mem_add_edge_nodeIds (g : Graph) (u v rel x : String) :
    x ∈ (g.add_edge u v rel).nodeIds ↔ x ∈ g.nodeIds ∨ x = u ∨ x = v := by
  rw [add_edge_nodeIds, mem_ensureNode_nodeIds, mem_ensureNode_nodeIds, or_assoc]

lemma add_edge_nodeIds_nodup (g : Graph) (u v rel : String) (h : g.nodeIds.Nodup) :
    (g.add_edge u v rel).nodeIds.Nodup := by
  rw [add_edge_nodeIds]
  exact ensureNode_nodeIds_nodup _ _ (ensureNode_nodeIds_nodup _ _ h)

lemma mem_foldl_add_edge_nodeIds (rels : List (String × String × String)) :
    ∀ (g : Graph) (x : String),
      x ∈ (rels.foldl (fun g r => g.add_edge r.1 r.2.2 r.2.1) g).nodeIds ↔
        x ∈ g.nodeIds ∨ ∃ r ∈ rels, x = r.1 ∨ x = r.2.2 := by
  induction rels with
  | nil => simp
  | cons r t ih =>
    intro g x
    rw [List.foldl_cons, ih, mem_add_edge_nodeIds]
    constructor
    · rintro ((hx | hx | hx) | ⟨r2, hr2, hx⟩)
      · exact Or.inl hx
      · exact Or.inr ⟨r, List.mem_cons_self r t, Or.inl hx⟩
      · exact Or.inr ⟨r, List.mem_cons_self r t, Or.inr hx⟩
      · exact Or.inr ⟨r2, List.mem_cons_of_mem r hr2, hx⟩
    · rintro (hx | ⟨r2, hr2, hx⟩)
      · exact Or.inl (Or.inl hx)
      · rcases List.mem_cons.mp hr2 with rfl | hr2
        · exact Or.inl (Or.inr hx)
        · exact Or.inr ⟨r2, hr2, hx⟩

lemma foldl_add_edge_nodeIds_nodup (rels : List (String × String × String)) :
    ∀ (g : Graph), g.nodeIds.Nodup →
      (rels.foldl (fun g r => g.add_edge r.1 r.2.2 r.2.1) g).nodeIds.Nodup := by
  induction rels with
  | nil => exact fun g h => h
  | cons r t ih =>
    intro g h
    exact ih _ (add_edge_nodeIds_nodup _ _ _ _ h)

/-- All relationship triples produced for `s` have source `s.id` and
target either a declared dependency or an existing node of the graph
they were extracted against. -/
lemma extract_relationships_shape (g : Graph) (s : Skill) :
    ∀ r ∈ extract_relationships g s,
      r.1 = s.id ∧ (r.2.2 ∈ s.dependencies ∨ r.2.2 ∈ g.nodeIds) := by
  intro r hr
  rw [extract_relationships_eq] at hr
  rcases List.mem_append.mp hr with hr | hr
  · rcases List.mem_append.mp hr with hr | hr
    · rcases List.mem_map.mp hr with ⟨dep, hdep, rfl⟩
      exact ⟨rfl, Or.inl hdep⟩
    · rcases List.mem_map.mp hr with ⟨p, hp, rfl⟩
      exact ⟨rfl, Or.inr (List.mem_map_of_mem Prod.fst (List.mem_of_mem_filter hp))⟩
  · rcases List.mem_map.mp hr with ⟨p, hp, rfl⟩
    exact ⟨rfl, Or.inr (List.mem_map_of_mem Prod.fst (List.mem_of_mem_filter hp))⟩

/-- Conversely, every declared dependency shows up as a triple
target. -/
lemma dep_mem_extract_relationships (g : Graph) (s : Skill) (d : String)
    (hd : d ∈ s.dependencies) :
    (s.id, "depends_on", d) ∈ extract_relationships g s := by
  rw [extract_relationships_eq]
  exact List.mem_append.mpr (Or.inl (List.mem_append.mpr (Or.inl
    (List.mem_map.mpr ⟨d, hd, rfl⟩))))

lemma index_skill_graph (st : EngineState) (s : Skill) :
    (index_skill st s).graph =
      (extract_relationships (st.graph.add_node s.id ⟨s.name, s.category, s.tags⟩) s).foldl
        (fun g r => g.add_edge r.1 r.2.2 r.2.1)
        (st.graph.add_node s.id ⟨s.name, s.category, s.tags⟩) := rfl

lemma mem_index_skill_nodeIds (st : EngineState) (s : Skill) (x : String) :
    x ∈ (index_skill st s).graph.nodeIds ↔
      x ∈ st.graph.nodeIds ∨ x = s.id ∨ x ∈ s.dependencies := by
  have hg1 : ∀ y, y ∈ (st.graph.add_node s.id ⟨s.name, s.category, s.tags⟩).nodeIds ↔
      y ∈ st.graph.nodeIds ∨ y = s.id := by
    intro y
    exact mem_upsertKeyed_keys st.graph.nodes s.id y (some ⟨s.name, s.category, s.tags⟩)
  rw [index_skill_graph, mem_foldl_add_edge_nodeIds]
  constructor
  · rintro (hx | ⟨r, hr, hx⟩)
    · rcases (hg1 x).mp hx with hx | rfl
      · exact Or.inl hx
      · exact Or.inr (Or.inl rfl)
    · rcases extract_relationships_shape _ _ r hr with ⟨hsrc, htgt⟩
      rcases hx with rfl | rfl
      · exact Or.inr (Or.inl hsrc)
      · rcases htgt with ht | ht
        · exact Or.inr (Or.inr ht)
        · rcases (hg1 r.2.2).mp ht with h2 | h2
          · exact Or.inl h2
          · exact Or.inr (Or.inl h2)
  · rintro (hx | rfl | hx)
    · exact Or.inl ((hg1 x).mpr (Or.inl hx))
    · exact Or.inl ((hg1 _).mpr (Or.inr rfl))
    · exact Or.inr ⟨(s.id, "depends_on", x), dep_mem_extract_relationships _ _ _ hx, Or.inr rfl⟩

lemma index_skill_nodeIds_nodup (st : EngineState) (s : Skill)
    (h : st.graph.nodeIds.Nodup) : (index_skill st s).graph.nodeIds.Nodup := by
  rw [index_skill_graph]
  refine foldl_add_edge_nodeIds_nodup _ _ ?_
  exact upsertKeyed_keys_nodup st.graph.nodes s.id (some ⟨s.name, s.category, s.tags⟩) h

/-! The collection ids over an indexing loop. -/

lemma index_skill_colIds (st : EngineState) (s : Skill) :
    colIds (index_skill st s).collection =
      if s.id ∈ colIds st.collection then colIds st.collection
      else colIds st.collection ++ [s.id] :=
  upsertKeyed_keys st.collection s.id _

lemma foldl_index_skill_colIds (skills : List Skill) :
    ∀ (st : EngineState),
      (∀ s ∈ skills, s.id ∉ colIds st.collection) →
      (skills.map Skill.id).Nodup →
      colIds ((skills.foldl index_skill st).collection) =
        colIds st.collection ++ skills.map Skill.id := by
  induction skills with
  | nil => intro st _ _; simp
  | cons s t ih =>
    intro st hfresh hnd
    rw [List.foldl_cons, ih]
    · rw [index_skill_colIds, if_neg (hfresh s (List.mem_cons_self s t))]
      simp
    · intro s2 hs2
      rw [index_skill_colIds, if_neg (hfresh s (List.mem_cons_self s t))]
      intro hmem
      rcases List.mem_append.mp hmem with hmem | hmem
      · exact hfresh s2 (List.mem_cons_of_mem s hs2) hmem
      · have : s2.id = s.id := by simpa using hmem
        have : s.id ∈ t.map Skill.id := this ▸ List.mem_map_of_mem Skill.id hs2
        simp only [List.map_cons, List.nodup_cons] at hnd
        exact hnd.1 this
    · simp only [List.map_cons, List.nodup_cons] at hnd
      exact hnd.2

lemma mem_foldl_index_skill_nodeIds (skills : List Skill) :
    ∀ (st : EngineState) (x : String),
      x ∈ ((skills.foldl index_skill st).graph.nodeIds) ↔
        x ∈ st.graph.nodeIds ∨ ∃ s ∈ skills, x = s.id ∨ x ∈ s.dependencies := by
  induction skills with
  | nil => simp
  | cons s t ih =>
    intro st x
    rw [List.foldl_cons, ih, mem_index_skill_nodeIds]
    constructor
    · rintro ((hx | rfl | hx) | ⟨s2, hs2, hx⟩)
      · exact Or.inl hx
      · exact Or.inr ⟨s, List.mem_cons_self s t, Or.inl rfl⟩
      · exact Or.inr ⟨s, List.mem_cons_self s t, Or.inr hx⟩
      · exact Or.inr ⟨s2, List.mem_cons_of_mem s hs2, hx⟩
    · rintro (hx | ⟨s2, hs2, hx⟩)
      · exact Or.inl (Or.inl hx)
      · rcases List.mem_cons.mp hs2 with rfl | hs2
        · exact Or.inl (Or.inr hx)
        · exact Or.inr ⟨s2, hs2, hx⟩

lemma foldl_index_skill_nodeIds_nodup (skills : List Skill) :
    ∀ (st : EngineState), st.graph.nodeIds.Nodup →
      ((skills.foldl index_skill st).graph.nodeIds).Nodup := by
  induction skills with
  | nil => exact fun st h => h
  | cons s t ih =>
    intro st h
    exact ih _ (index_skill_nodeIds_nodup _ _ h)

/-! Claim theorems. -/

/-- Claim C1 — the code diverges from it.  `index_skill` builds the
embeddable text and writes it to the collection unconditionally: there
is no empty-text guard (the guard lives only in `build_embeddings`,
which `index_skill` never calls).  At the all-empty-fields skill of
the repository's own regression test, the embeddable text is
whitespace-only and yet the vector count grows from 0 to 1, where the
claim demands it stay unchanged. -/
theorem c1_empty_text_skill_is_still_indexed :
    isBlank (create_embeddable_text emptyFieldsSkill) = true ∧
    colCount (index_skill EngineState.empty emptyFieldsSkill).collection =
      colCount EngineState.empty.collection + 1 := by
  constructor
  · rfl
  · rfl

/-- Claim C7: `reindex_all` with no configured skill-discovery
collaborator raises (an `Except.error`, the Python `RuntimeError`) for
both `force` values; because it raises before reaching either store,
no updated state is produced and the caller's Vector Index and
Relationship Graph are untouched. -/
theorem c7_reindex_all_requires_manager (force : Bool) (st : EngineState) :
    reindex_all none force st =
      Except.error
        "SkillManager not set. Pass skill_manager to __init__() or set self.skill_manager before calling reindex_all()" :=
  rfl

/-- Claim C9: a whitespace-only query short-circuits `search` to an
empty `ok` result for every ChromaDB backend, graph phase, skill
manager, filter set and `top_k` — in particular also for backends that
would raise if invoked, which shows neither backend is consulted. -/
theorem c9_search_blank_query_returns_empty (st : EngineState) (cq : ChromaQuery)
    (gp : GraphPhase) (mgr : Option LoadE) (toolchain category : Option String)
    (top_k : Nat) (query : String) (h : isBlank query = true) :
    search st cq gp mgr query toolchain category top_k = Except.ok [] := by
  unfold search
  rw [if_pos h]

/-- Witness for C9 at the two-space query and always-raising backends. -/
theorem c9_search_blank_query_returns_empty_witness :
    isBlank "  " = true ∧
    search EngineState.empty (fun _ _ _ => Except.error "backend down")
      (fun _ _ => Except.error "backend down") none "  " none none 10 = Except.ok [] :=
  ⟨rfl,
   c9_search_blank_query_returns_empty EngineState.empty
     (fun _ _ _ => Except.error "backend down") (fun _ _ => Except.error "backend down")
     none none none 10 "  " rfl⟩

/-- Claim C10: a seed id that is not a graph node makes
`_graph_search` return the empty result and `get_related_skills`
return the empty list, for every `max_depth` and every skill-discovery
collaborator (including none at all: the collaborator is never
consulted since there are no related ids to resolve). -/
theorem c10_missing_seed_returns_empty (g : Graph) (seed : String) (maxDepth : Nat)
    (mgr : Option (String → Option Skill)) (h : ¬ g.hasNode seed) :
    graph_search g seed maxDepth = [] ∧ get_related_skills g mgr seed maxDepth = [] := by
  unfold graph_search get_related_skills
  rw [if_neg h, if_neg h]
  exact ⟨rfl, rfl⟩

/-- Witness for C10 at the three-skill fixture graph and an unknown
seed. -/
theorem c10_missing_seed_returns_empty_witness :
    ¬ st3.graph.hasNode "nope" ∧
    (graph_search st3.graph "nope" 2 = [] ∧
     get_related_skills st3.graph none "nope" 2 = []) :=
  ⟨by decide, c10_missing_seed_returns_empty st3.graph "nope" 2 none (by decide)⟩

/-- Claim C5: `search` never raises.  First conjunct: for every
behavior of the ChromaDB backend, the graph phase and the skill
manager (each free to raise), `search` returns normally.  Second and
third: a raising vector backend or graph phase is caught inside its
phase and degrades that phase's contribution to the empty list.
Fourth: a failure while resolving results (a raising skill manager)
makes the whole call return the empty list rather than raise. -/
theorem c5_search_never_raises (st : EngineState) (cq : ChromaQuery) (gp : GraphPhase)
    (mgr : Option LoadE) (query : String) (toolchain category : Option String)
    (top_k : Nat) :
    isOkE (search st cq gp mgr query toolchain category top_k) = true ∧
    (∀ e : String,
      vector_search st.collection (fun _ _ _ => Except.error e)
        query toolchain category top_k = []) ∧
    (∀ (e seed : String) (d : Nat),
      graph_phase_caught (fun _ _ => Except.error e) seed d = []) ∧
    (∀ e : String,
      search st cq gp (some (fun _ => Except.error e)) query toolchain category top_k =
        Except.ok []) := by
  refine ⟨?_, ?_, ?_, ?_⟩
  · unfold search
    by_cases h : isBlank query = true
    · rw [if_pos h]; rfl
    · rw [if_neg h]
      cases search_try st cq gp mgr query toolchain category top_k <;> rfl
  · intro e
    rfl
  · intro e seed d
    rfl
  · intro e
    unfold search
    by_cases h : isBlank query = true
    · rw [if_pos h]
    · rw [if_neg h]
      unfold search_try
      rcases combine_resultsE_failing_loader e
          ((vector_search st.collection cq query toolchain category (top_k * 2)).map
            fun r => (r.skill_id, r.score))
          (match vector_search st.collection cq query toolchain category (top_k * 2) with
            | [] => []
            | v0 :: _ => graph_phase_caught gp v0.skill_id 2) with
        hcomb | hcomb <;>
        simp [hcomb, Except.bind, apply_filters_nil]

/-- Claim C2: one live vector per id.  When the skill's embeddable
text is non-empty, `index_skill` keeps the collection keys duplicate
free, leaves `count()` unchanged when the id was already indexed
(overwrite), and grows `count()` by exactly 1 when it was not. -/
theorem c2_index_skill_count (st : EngineState) (s : Skill)
    (htext : isBlank (create_embeddable_text s) = false)
    (hnodup : (colIds st.collection).Nodup) :
    (colIds (index_skill st s).collection).Nodup ∧
    (s.id ∈ colIds st.collection →
      colCount (index_skill st s).collection = colCount st.collection) ∧
    (s.id ∉ colIds st.collection →
      colCount (index_skill st s).collection = colCount st.collection + 1) := by
  have hc : (index_skill st s).collection =
      upsertKeyed st.collection s.id
        (create_embeddable_text s,
          ⟨s.id, s.name, s.category, String.intercalate "," s.tags, s.repo_id⟩) := rfl
  refine ⟨?_, ?_, ?_⟩
  · rw [hc]
    exact upsertKeyed_keys_nodup _ _ _ hnodup
  · intro hmem
    have hmem2 : s.id ∈ st.collection.map Prod.fst := hmem
    show (index_skill st s).collection.length = st.collection.length
    rw [hc, upsertKeyed_length, if_pos hmem2]
  · intro hmem
    have hmem2 : s.id ∉ st.collection.map Prod.fst := hmem
    show (index_skill st s).collection.length = st.collection.length + 1
    rw [hc, upsertKeyed_length, if_neg hmem2]

/-- Witness for C2 at the fixture skill `A` and the empty engine
state. -/
theorem c2_index_skill_count_witness :
    isBlank (create_embeddable_text skA) = false ∧
    (colIds EngineState.empty.collection).Nodup ∧
    ((colIds (index_skill EngineState.empty skA).collection).Nodup ∧
     (skA.id ∈ colIds EngineState.empty.collection →
       colCount (index_skill EngineState.empty skA).collection =
         colCount EngineState.empty.collection) ∧
     (skA.id ∉ colIds EngineState.empty.collection →
       colCount (index_skill EngineState.empty skA).collection =
         colCount EngineState.empty.collection + 1)) :=
  ⟨by decide, by decide, c2_index_skill_count EngineState.empty skA (by decide) (by decide)⟩

/-- Claim C4: `extract_relationships` returns exactly one
`depends_on` triple per declared dependency in order (with no
existence check on the target), then one `same_category` triple per
other node whose cached category matches, then one `shared_tag` triple
per other node whose cached tag set intersects the skill's tags — one
per node however many tags overlap, as the filter-then-map form
shows. -/
theorem c4_extract_relationships_exact (g : Graph) (s : Skill) :
    extract_relationships g s =
      s.dependencies.map (fun dep => (s.id, "depends_on", dep))
      ++ (g.nodes.filter (fun p =>
            decide (p.1 ≠ s.id ∧ (p.2.map NodeData.category) = some s.category))).map
          (fun p => (s.id, "same_category", p.1))
      ++ (g.nodes.filter (fun p =>
            decide (p.1 ≠ s.id ∧
              s.tags.any (fun t => ((p.2.map NodeData.tags).getD []).contains t)))).map
          (fun p => (s.id, "shared_tag", p.1)) :=
  extract_relationships_eq g s

/-- Claim C8 — the code diverges from it on dangling dependencies.  A
one-skill source whose skill declares the nonexistent dependency
`ghost` has non-blank embeddable text, yet the forced rebuild reports
`total_skills = 1` and `graph_nodes = 2`: the `depends_on` edge to
`ghost` auto-creates a second graph node, so `graphNodes = N` fails. -/
theorem c8_counterexample_dangling_dependency :
    isBlank (create_embeddable_text ghostDepSkill) = false ∧
    (reindex_all (some ⟨[ghostDepSkill]⟩) true EngineState.empty).toOption.map
        (fun p => ((get_stats p.1).total_skills, (get_stats p.1).graph_nodes)) =
      some (1, 2) ∧ (2 : Nat) ≠ 1 := by
  refine ⟨by decide, by decide, by decide⟩

/-- Claim C8 as amended: `reindex_all(force=True)` first clears both
stores and then runs the per-skill indexing loop over the discovered
skills (the result state is the loop run from the empty state,
whatever the previous state held); and when the N discovered skills
have distinct ids, non-blank embeddable text, and — the amendment —
every declared dependency refers to one of those N skills, the
returned stats satisfy `total_skills = N` and `graph_nodes = N`. -/
theorem c8_reindex_all_force_rebuild (m : SkillSource) (st : EngineState)
    (hids : (m.skills.map Skill.id).Nodup)
    (htext : ∀ s ∈ m.skills, isBlank (create_embeddable_text s) = false)
    (hdeps : ∀ s ∈ m.skills, ∀ d ∈ s.dependencies, d ∈ m.skills.map Skill.id) :
    reindex_all (some m) true st =
      Except.ok (m.skills.foldl index_skill EngineState.empty,
        get_stats (m.skills.foldl index_skill EngineState.empty)) ∧
    (get_stats (m.skills.foldl index_skill EngineState.empty)).total_skills =
      m.skills.length ∧
    (get_stats (m.skills.foldl index_skill EngineState.empty)).graph_nodes =
      m.skills.length := by
  refine ⟨rfl, ?_, ?_⟩
  · show ((m.skills.foldl index_skill EngineState.empty).collection).length = _
    have h := foldl_index_skill_colIds m.skills EngineState.empty
      (fun s _ hmem => by simp [EngineState.empty, colIds] at hmem) hids
    have hlen : (colIds ((m.skills.foldl index_skill EngineState.empty).collection)).length =
        (colIds EngineState.empty.collection ++ m.skills.map Skill.id).length := by rw [h]
    simpa [colIds, EngineState.empty] using hlen
  · show ((m.skills.foldl index_skill EngineState.empty).graph.nodes).length = _
    have hnd : ((m.skills.foldl index_skill EngineState.empty).graph.nodeIds).Nodup := by
      refine foldl_index_skill_nodeIds_nodup m.skills EngineState.empty ?_
      simp [EngineState.empty, Graph.empty, Graph.nodeIds]
    have hmem : ∀ x, x ∈ (m.skills.foldl index_skill EngineState.empty).graph.nodeIds ↔
        x ∈ m.skills.map Skill.id := by
      intro x
      rw [mem_foldl_index_skill_nodeIds]
      constructor
      · rintro (hx | ⟨s, hs, rfl | hx⟩)
        · simp [EngineState.empty, Graph.empty, Graph.nodeIds] at hx
        · exact List.mem_map_of_mem Skill.id hs
        · exact hdeps s hs x hx
      · rintro hx
        rcases List.mem_map.mp hx with ⟨s, hs, rfl⟩
        exact Or.inr ⟨s, hs, Or.inl rfl⟩
    have hperm : (m.skills.foldl index_skill EngineState.empty).graph.nodeIds.Perm
        (m.skills.map Skill.id) :=
      (List.perm_ext_iff_of_nodup hnd hids).mpr hmem
    have hlen := hperm.length_eq
    simpa [Graph.nodeIds] using hlen

/-- Witness for the amended C8 at the three-skill fixture source. -/
theorem c8_reindex_all_force_rebuild_witness :
    ((([skA, skB, skC].map Skill.id).Nodup) ∧
     (∀ s ∈ [skA, skB, skC], isBlank (create_embeddable_text s) = false) ∧
     (∀ s ∈ [skA, skB, skC], ∀ d ∈ s.dependencies, d ∈ [skA, skB, skC].map Skill.id)) ∧
    (reindex_all (some ⟨[skA, skB, skC]⟩) true EngineState.empty =
      Except.ok ([skA, skB, skC].foldl index_skill EngineState.empty,
        get_stats ([skA, skB, skC].foldl index_skill EngineState.empty)) ∧
    (get_stats ([skA, skB, skC].foldl index_skill EngineState.empty)).total_skills =
      ([skA, skB, skC] : List Skill).length ∧
    (get_stats ([skA, skB, skC].foldl index_skill EngineState.empty)).graph_nodes =
      ([skA, skB, skC] : List Skill).length) :=
  ⟨⟨by decide, by decide, by decide⟩,
   c8_reindex_all_force_rebuild ⟨[skA, skB, skC]⟩ EngineState.empty
     (by decide) (by decide) (by decide)⟩

/-! Lookup lemmas for insertion-ordered keyed maps. -/

lemma slookup_none_of_not_mem {β : Type} {l : List (String × β)} {k : String}
    (h : k ∉ l.map Prod.fst) : l.lookup k = none := by
  rw [List.lookup_eq_none_iff]
  intro p hp
  simp only [bne_iff_ne, ne_eq]
  intro hk
  exact h (hk ▸ List.mem_map_of_mem Prod.fst hp)

lemma slookup_isSome_iff_mem {β : Type} (l : List (String × β)) (k : String) :
    (l.lookup k).isSome ↔ k ∈ l.map Prod.fst := by
  rw [List.lookup_isSome_iff]
  constructor
  · rintro ⟨p, hp, hbeq⟩
    exact (eq_of_beq hbeq) ▸ List.mem_map_of_mem Prod.fst hp
  · intro hk
    rcases List.mem_map.mp hk with ⟨p, hp, rfl⟩
    exact ⟨p, hp, beq_self_eq_true _⟩

lemma slookup_of_mem_nodup {β : Type} {l : List (String × β)} {k : String} {b : β}
    (hnd : (l.map Prod.fst).Nodup) (h : (k, b) ∈ l) : l.lookup k = some b := by
  induction l with
  | nil => simp at h
  | cons p t ih =>
    obtain ⟨k1, b1⟩ := p
    simp only [List.map_cons, List.nodup_cons] at hnd
    rcases List.mem_cons.mp h with heq | hmem
    · have h1 : k = k1 := congrArg Prod.fst heq
      have h2 : b = b1 := congrArg Prod.snd heq
      subst h1
      subst h2
      exact List.lookup_cons_self
    · have hk : k ≠ k1 := by
        intro hkk
        exact hnd.1 (hkk ▸ List.mem_map_of_mem Prod.fst hmem)
      rw [List.lookup_cons]
      have : (k == k1) = false := beq_eq_false_iff_ne.mpr hk
      rw [this]
      exact ih hnd.2 hmem

lemma slookup_append_single_of_ne {β : Type} (l : List (String × β)) (k k2 : String) (b : β)
    (h : k2 ≠ k) : (l ++ [(k, b)]).lookup k2 = l.lookup k2 := by
  rw [List.lookup_append]
  have hone : ([((k : String), b)].lookup k2) = none := by
    rw [List.lookup_cons]
    have hb : (k2 == k) = false := beq_eq_false_iff_ne.mpr h
    rw [hb]
    rfl
  rw [hone]
  cases l.lookup k2 <;> rfl

lemma lookup_overwrite_self {β : Type} (l : List (String × β)) (k : String) (b : β)
    (hm : k ∈ l.map Prod.fst) :
    (l.map (fun p => if p.1 = k then (k, b) else p)).lookup k = some b := by
  induction l with
  | nil => simp at hm
  | cons p t ih =>
    obtain ⟨k1, b1⟩ := p
    by_cases hk : k1 = k
    · simp only [List.map_cons, if_pos hk]
      exact List.lookup_cons_self
    · simp only [List.map_cons, if_neg hk]
      rw [List.lookup_cons]
      have : (k == k1) = false := beq_eq_false_iff_ne.mpr (fun hkk => hk hkk.symm)
      rw [this]
      refine ih ?_
      simp only [List.map_cons, List.mem_cons] at hm
      rcases hm with hm | hm
      · exact absurd hm.symm hk
      · exact hm

lemma lookup_overwrite_other {β : Type} (l : List (String × β)) (k k2 : String) (b : β)
    (h : k2 ≠ k) :
    (l.map (fun p => if p.1 = k then (k, b) else p)).lookup k2 = l.lookup k2 := by
  induction l with
  | nil => rfl
  | cons p t ih =>
    obtain ⟨k1, b1⟩ := p
    by_cases hk : k1 = k
    · simp only [List.map_cons, if_pos hk]
      rw [List.lookup_cons, List.lookup_cons]
      have h2 : (k2 == k) = false := beq_eq_false_iff_ne.mpr h
      have h3 : (k2 == k1) = false := beq_eq_false_iff_ne.mpr (hk ▸ h)
      rw [h2, h3]
      exact ih
    · simp only [List.map_cons, if_neg hk]
      rw [List.lookup_cons, List.lookup_cons]
      cases hbeq : k2 == k1
      · exact ih
      · rfl

lemma slookup_upsert_self {β : Type} (l : List (String × β)) (k : String) (b : β) :
    (upsertKeyed l k b).lookup k = some b := by
  unfold upsertKeyed
  by_cases hm : k ∈ l.map Prod.fst
  · rw [if_pos hm]
    exact lookup_overwrite_self l k b hm
  · rw [if_neg hm, List.lookup_append, slookup_none_of_not_mem hm]
    simp [List.lookup_cons_self]

lemma slookup_upsert_other {β : Type} (l : List (String × β)) (k k2 : String) (b : β)
    (h : k2 ≠ k) : (upsertKeyed l k b).lookup k2 = l.lookup k2 := by
  unfold upsertKeyed
  by_cases hm : k ∈ l.map Prod.fst
  · rw [if_pos hm]
    exact lookup_overwrite_other l k k2 b h
  · rw [if_neg hm]
    exact slookup_append_single_of_ne l k k2 b h

lemma lookup_map_pairzero (vres : List (String × Rat)) (id : String) :
    (vres.map (fun p => (p.1, p.2, (0 : Rat)))).lookup id =
      (vres.lookup id).map (fun v => (v, (0 : Rat))) := by
  induction vres with
  | nil => rfl
  | cons p t ih =>
    obtain ⟨k, v⟩ := p
    simp only [List.map_cons]
    rw [List.lookup_cons, List.lookup_cons]
    cases hbeq : id == k
    · exact ih
    · rfl

/-! The two loops of `_combine_results` in closed form. -/

lemma vector_loop_eq (vres : List (String × Rat)) :
    ∀ (acc : List (String × Rat × Rat)),
      (∀ p ∈ vres, p.1 ∉ acc.map Prod.fst) → (vres.map Prod.fst).Nodup →
      vres.foldl (fun m p => upsertScore m p.1 (p.2, 0)) acc =
        acc ++ vres.map (fun p => (p.1, p.2, 0)) := by
  induction vres with
  | nil => intro acc _ _; simp
  | cons p t ih =>
    intro acc hfresh hnd
    simp only [List.map_cons, List.nodup_cons] at hnd
    rw [List.foldl_cons]
    have hstep : upsertScore acc p.1 (p.2, 0) = acc ++ [(p.1, p.2, 0)] := by
      unfold upsertScore upsertKeyed
      rw [if_neg (hfresh p (List.mem_cons_self p t))]
    rw [hstep, ih]
    · simp
    · intro q hq hmem
      rw [List.map_append] at hmem
      rcases List.mem_append.mp hmem with hmem | hmem
      · exact hfresh q (List.mem_cons_of_mem p hq) hmem
      · have hqp : q.1 = p.1 := by simpa using hmem
        exact hnd.1 (hqp ▸ List.mem_map_of_mem Prod.fst hq)
    · exact hnd.2

lemma graph_loop_keys_nodup (gres : List (String × Rat)) :
    ∀ (m : List (String × Rat × Rat)), (m.map Prod.fst).Nodup →
      (((gres.foldl
          (fun m p => upsertScore m p.1 (((m.lookup p.1).getD (0, 0)).1, p.2)) m)).map
        Prod.fst).Nodup := by
  induction gres with
  | nil => exact fun m h => h
  | cons p t ih =>
    intro m h
    exact ih _ (upsertKeyed_keys_nodup _ _ _ h)

lemma graph_loop_lookup (gres : List (String × Rat)) :
    ∀ (m : List (String × Rat × Rat)) (id : String),
      (m.map Prod.fst).Nodup → (gres.map Prod.fst).Nodup →
      ((gres.foldl
          (fun m p => upsertScore m p.1 (((m.lookup p.1).getD (0, 0)).1, p.2)) m).lookup id) =
        (match gres.lookup id with
          | some gs => some (((m.lookup id).getD (0, 0)).1, gs)
          | none => m.lookup id) := by
  induction gres with
  | nil => intro m id _ _; simp
  | cons p t ih =>
    intro m id hm hg
    obtain ⟨k, gs⟩ := p
    simp only [List.map_cons, List.nodup_cons] at hg
    rw [List.foldl_cons]
    have hm1 : ((upsertScore m k (((m.lookup k).getD (0, 0)).1, gs)).map Prod.fst).Nodup :=
      upsertKeyed_keys_nodup _ _ _ hm
    rw [ih _ id hm1 hg.2]
    by_cases hid : id = k
    · subst hid
      have htk : t.lookup id = none :=
        slookup_none_of_not_mem (fun hmem => hg.1 hmem)
      simp only [htk, List.lookup_cons_self, upsertScore]
      rw [slookup_upsert_self]
    · have hcons : ((k, gs) :: t).lookup id = t.lookup id := by
        rw [List.lookup_cons]
        have hb : (id == k) = false := beq_eq_false_iff_ne.mpr hid
        rw [hb]
      simp only [hcons, upsertScore, slookup_upsert_other m k id _ hid]

/-- The `score_map` lookup in closed form: an id present in either
phase maps to its pair of phase scores (0 for a missing phase), an id
in neither phase is absent. -/
lemma buildScoreMap_lookup (vres gres : List (String × Rat))
    (hv : (vres.map Prod.fst).Nodup) (hg : (gres.map Prod.fst).Nodup) (id : String) :
    (buildScoreMap vres gres).lookup id =
      if id ∈ vres.map Prod.fst ∨ id ∈ gres.map Prod.fst then
        some ((vres.lookup id).getD 0, (gres.lookup id).getD 0)
      else none := by
  unfold buildScoreMap
  rw [vector_loop_eq vres [] (by simp) hv]
  simp only [List.nil_append]
  have hkeys : ((vres.map (fun p => (p.1, p.2, (0 : Rat)))).map Prod.fst).Nodup := by
    have : (vres.map (fun p => (p.1, p.2, (0 : Rat)))).map Prod.fst = vres.map Prod.fst := by
      simp
    rw [this]; exact hv
  rw [graph_loop_lookup gres _ id hkeys hg]
  cases hgl : gres.lookup id with
  | some gs =>
    have hidg : id ∈ gres.map Prod.fst := by
      rw [← slookup_isSome_iff_mem, hgl]; rfl
    rw [if_pos (Or.inr hidg), lookup_map_pairzero]
    cases hvl : vres.lookup id <;> simp
  | none =>
    have hng : id ∉ gres.map Prod.fst := by
      intro hmem
      have := (slookup_isSome_iff_mem gres id).mpr hmem
      rw [hgl] at this
      exact absurd this (by simp)
    rw [lookup_map_pairzero]
    cases hvl : vres.lookup id with
    | some v =>
      have hidv : id ∈ vres.map Prod.fst := by
        rw [← slookup_isSome_iff_mem, hvl]; rfl
      rw [if_pos (Or.inl hidv)]
      simp
    | none =>
      have hnv : id ∉ vres.map Prod.fst := by
        intro hmem
        have := (slookup_isSome_iff_mem vres id).mpr hmem
        rw [hvl] at this
        exact absurd this (by simp)
      rw [if_neg (by rintro (h | h); exacts [hnv h, hng h])]
      rfl

lemma buildScoreMap_keys_nodup (vres gres : List (String × Rat))
    (hv : (vres.map Prod.fst).Nodup) :
    ((buildScoreMap vres gres).map Prod.fst).Nodup := by
  unfold buildScoreMap
  rw [vector_loop_eq vres [] (by simp) hv]
  simp only [List.nil_append]
  refine graph_loop_keys_nodup gres _ ?_
  have : (vres.map (fun p => (p.1, p.2, (0 : Rat)))).map Prod.fst = vres.map Prod.fst := by
    simp
  rw [this]; exact hv

lemma slookup_mem {β : Type} {l : List (String × β)} {k : String} {b : β}
    (h : l.lookup k = some b) : (k, b) ∈ l := by
  induction l with
  | nil => simp at h
  | cons p t ih =>
    obtain ⟨k1, b1⟩ := p
    rw [List.lookup_cons] at h
    by_cases hk : k = k1
    · have hb : (k == k1) = true := beq_iff_eq.mpr hk
      rw [hb] at h
      have hbb : b1 = b := Option.some.inj h
      subst hk
      subst hbb
      exact List.mem_cons_self _ _
    · have hb : (k == k1) = false := beq_eq_false_iff_ne.mpr hk
      rw [hb] at h
      exact List.mem_cons_of_mem _ (ih h)

/-- The match-type rule, characterised over the non-negative scores
the two phases produce. -/
lemma matchTypeOf_spec (v g : Rat) (hv0 : 0 ≤ v) (hg0 : 0 ≤ g) :
    (matchTypeOf v g = "hybrid" ↔ (v ≠ 0 ∧ g ≠ 0)) ∧
    (matchTypeOf v g = "vector" ↔ (v ≠ 0 ∧ g = 0)) ∧
    (matchTypeOf v g = "graph" ↔ v = 0) := by
  unfold matchTypeOf
  rcases eq_or_lt_of_le hv0 with hv | hv
  · rw [if_neg, if_neg]
    · refine ⟨?_, ?_, ?_⟩
      · constructor
        · intro h
          exact absurd h (by decide)
        · rintro ⟨hne, _⟩
          exact absurd hv.symm hne
      · constructor
        · intro h
          exact absurd h (by decide)
        · rintro ⟨hne, _⟩
          exact absurd hv.symm hne
      · exact ⟨fun _ => hv.symm, fun _ => rfl⟩
    · intro hlt
      rw [← hv] at hlt
      exact lt_irrefl 0 hlt
    · rintro ⟨h1, _⟩
      rw [← hv] at h1
      exact lt_irrefl 0 h1
  · rcases eq_or_lt_of_le hg0 with hg | hg
    · rw [if_neg, if_pos hv]
      · refine ⟨?_, ?_, ?_⟩
        · constructor
          · intro h
            exact absurd h (by decide)
          · rintro ⟨_, hgne⟩
            exact absurd hg.symm hgne
        · exact ⟨fun _ => ⟨hv.ne', hg.symm⟩, fun _ => rfl⟩
        · constructor
          · intro h
            exact absurd h (by decide)
          · intro hz
            exact absurd hz hv.ne'
      · rintro ⟨_, hgg⟩
        rw [← hg] at hgg
        exact lt_irrefl 0 hgg
    · rw [if_pos ⟨hv, hg⟩]
      refine ⟨?_, ?_, ?_⟩
      · exact ⟨fun _ => ⟨hv.ne', hg.ne'⟩, fun _ => rfl⟩
      · constructor
        · intro h
          exact absurd h (by decide)
        · rintro ⟨_, hgz⟩
          exact absurd hgz hg.ne'
      · constructor
        · intro h
          exact absurd h (by decide)
        · intro hz
          exact absurd hz hv.ne'

/-- Claim C3: for every id in either phase's result set, the fused
entry carries `0.7·vectorScore + 0.3·graphScore` (a missing phase
contributing 0), and its match type is `hybrid` when both phase scores
are non-zero, `vector` when only the vector score is, and `graph`
otherwise; conversely the fused entries cover exactly the ids of the
two phases. -/
theorem c3_fusion_weights_and_match_type (vres gres : List (String × Rat))
    (hv : (vres.map Prod.fst).Nodup) (hg : (gres.map Prod.fst).Nodup)
    (hvpos : ∀ p ∈ vres, 0 ≤ p.2) (hgpos : ∀ p ∈ gres, 0 ≤ p.2) :
    (∀ e ∈ hybridEntries vres gres,
      e.2.1 = VECTOR_WEIGHT * ((vres.lookup e.1).getD 0)
               + GRAPH_WEIGHT * ((gres.lookup e.1).getD 0) ∧
      (e.2.2 = "hybrid" ↔
        ((vres.lookup e.1).getD 0 ≠ 0 ∧ (gres.lookup e.1).getD 0 ≠ 0)) ∧
      (e.2.2 = "vector" ↔
        ((vres.lookup e.1).getD 0 ≠ 0 ∧ (gres.lookup e.1).getD 0 = 0)) ∧
      (e.2.2 = "graph" ↔ (vres.lookup e.1).getD 0 = 0)) ∧
    (∀ id : String, (∃ sc mt, (id, sc, mt) ∈ hybridEntries vres gres) ↔
      (id ∈ vres.map Prod.fst ∨ id ∈ gres.map Prod.fst)) := by
  constructor
  · intro e he
    unfold hybridEntries at he
    rcases List.mem_map.mp he with ⟨p, hp, heq⟩
    subst heq
    have hlk : (buildScoreMap vres gres).lookup p.1 = some p.2 := by
      have hnd := buildScoreMap_keys_nodup vres gres hv
      exact slookup_of_mem_nodup hnd hp
    rw [buildScoreMap_lookup vres gres hv hg p.1] at hlk
    by_cases hcond : p.1 ∈ vres.map Prod.fst ∨ p.1 ∈ gres.map Prod.fst
    · rw [if_pos hcond] at hlk
      have h2 := Option.some.inj hlk
      have hvd : p.2.1 = (vres.lookup p.1).getD 0 := by rw [← h2]
      have hgd : p.2.2 = (gres.lookup p.1).getD 0 := by rw [← h2]
      have hv0 : 0 ≤ (vres.lookup p.1).getD 0 := by
        cases hvl : vres.lookup p.1 with
        | none => simp
        | some v =>
          have := hvpos (p.1, v) (slookup_mem hvl)
          simpa using this
      have hg0 : 0 ≤ (gres.lookup p.1).getD 0 := by
        cases hgl : gres.lookup p.1 with
        | none => simp
        | some gsc =>
          have := hgpos (p.1, gsc) (slookup_mem hgl)
          simpa using this
      have hmt := matchTypeOf_spec _ _ hv0 hg0
      refine ⟨?_, ?_, ?_, ?_⟩
      · show VECTOR_WEIGHT * p.2.1 + GRAPH_WEIGHT * p.2.2 = _
        rw [hvd, hgd]
      · show matchTypeOf p.2.1 p.2.2 = "hybrid" ↔ _
        rw [hvd, hgd]
        exact hmt.1
      · show matchTypeOf p.2.1 p.2.2 = "vector" ↔ _
        rw [hvd, hgd]
        exact hmt.2.1
      · show matchTypeOf p.2.1 p.2.2 = "graph" ↔ _
        rw [hvd, hgd]
        exact hmt.2.2
    · rw [if_neg hcond] at hlk
      exact absurd hlk (by simp)
  · intro id
    constructor
    · rintro ⟨sc, mt, hmem⟩
      unfold hybridEntries at hmem
      rcases List.mem_map.mp hmem with ⟨p, hp, heq⟩
      have h1 : p.1 = id := congrArg Prod.fst heq
      have hid : id ∈ (buildScoreMap vres gres).map Prod.fst :=
        h1 ▸ List.mem_map_of_mem Prod.fst hp
      have hsome : ((buildScoreMap vres gres).lookup id).isSome :=
        (slookup_isSome_iff_mem _ _).mpr hid
      rw [buildScoreMap_lookup vres gres hv hg id] at hsome
      by_cases hcond : id ∈ vres.map Prod.fst ∨ id ∈ gres.map Prod.fst
      · exact hcond
      · rw [if_neg hcond] at hsome
        exact absurd hsome (by simp)
    · intro hcond
      have hsome : (buildScoreMap vres gres).lookup id =
          some ((vres.lookup id).getD 0, (gres.lookup id).getD 0) := by
        rw [buildScoreMap_lookup vres gres hv hg id, if_pos hcond]
      have hmem := slookup_mem hsome
      refine ⟨VECTOR_WEIGHT * ((vres.lookup id).getD 0)
                + GRAPH_WEIGHT * ((gres.lookup id).getD 0),
              matchTypeOf ((vres.lookup id).getD 0) ((gres.lookup id).getD 0), ?_⟩
      unfold hybridEntries
      exact List.mem_map.mpr
        ⟨(id, (vres.lookup id).getD 0, (gres.lookup id).getD 0), hmem, rfl⟩

/-- Witness for C3 at two small phase result sets sharing the id
`B`. -/
theorem c3_fusion_weights_and_match_type_witness :
    (((([("A", (1 : Rat)), ("B", (2 : Rat))] : List (String × Rat)).map
        Prod.fst).Nodup) ∧
     ((([("B", (3 : Rat)), ("Z", (1 : Rat))] : List (String × Rat)).map
        Prod.fst).Nodup) ∧
     (∀ p ∈ ([("A", (1 : Rat)), ("B", (2 : Rat))] : List (String × Rat)), 0 ≤ p.2) ∧
     (∀ p ∈ ([("B", (3 : Rat)), ("Z", (1 : Rat))] : List (String × Rat)), 0 ≤ p.2)) ∧
    ((∀ e ∈ hybridEntries [("A", (1 : Rat)), ("B", (2 : Rat))]
        [("B", (3 : Rat)), ("Z", (1 : Rat))],
      e.2.1 = VECTOR_WEIGHT * ((([("A", (1 : Rat)), ("B", (2 : Rat))] :
                List (String × Rat)).lookup e.1).getD 0)
               + GRAPH_WEIGHT * ((([("B", (3 : Rat)), ("Z", (1 : Rat))] :
                List (String × Rat)).lookup e.1).getD 0) ∧
      (e.2.2 = "hybrid" ↔
        ((([("A", (1 : Rat)), ("B", (2 : Rat))] :
            List (String × Rat)).lookup e.1).getD 0 ≠ 0 ∧
         (([("B", (3 : Rat)), ("Z", (1 : Rat))] :
            List (String × Rat)).lookup e.1).getD 0 ≠ 0)) ∧
      (e.2.2 = "vector" ↔
        ((([("A", (1 : Rat)), ("B", (2 : Rat))] :
            List (String × Rat)).lookup e.1).getD 0 ≠ 0 ∧
         (([("B", (3 : Rat)), ("Z", (1 : Rat))] :
            List (String × Rat)).lookup e.1).getD 0 = 0)) ∧
      (e.2.2 = "graph" ↔
        (([("A", (1 : Rat)), ("B", (2 : Rat))] :
            List (String × Rat)).lookup e.1).getD 0 = 0)) ∧
    (∀ id : String,
      (∃ sc mt, (id, sc, mt) ∈ hybridEntries [("A", (1 : Rat)), ("B", (2 : Rat))]
          [("B", (3 : Rat)), ("Z", (1 : Rat))]) ↔
      (id ∈ ([("A", (1 : Rat)), ("B", (2 : Rat))] :
          List (String × Rat)).map Prod.fst ∨
       id ∈ ([("B", (3 : Rat)), ("Z", (1 : Rat))] :
          List (String × Rat)).map Prod.fst))) :=
  ⟨⟨by decide, by decide, by decide, by decide⟩,
   c3_fusion_weights_and_match_type
     [("A", (1 : Rat)), ("B", (2 : Rat))] [("B", (3 : Rat)), ("Z", (1 : Rat))]
     (by decide) (by decide) (by decide) (by decide)⟩

/-! BFS unfolding lemmas and invariants. -/

lemma scontains_iff {l : List String} {x : String} : l.contains x = true ↔ x ∈ l := by
  simp [List.contains]

lemma bfsAux_zero (g : Graph) (maxDepth : Nat) (queue : List (String × Nat))
    (visited : List String) (acc : List (String × Rat)) :
    bfsAux g maxDepth 0 queue visited acc = acc := by
  simp [bfsAux]

lemma bfsAux_nil (g : Graph) (maxDepth fuel : Nat) (visited : List String)
    (acc : List (String × Rat)) :
    bfsAux g maxDepth (fuel + 1) [] visited acc = acc := by
  simp [bfsAux]

lemma bfsAux_skip_step (g : Graph) (maxDepth fuel : Nat) (u : String) (d : Nat)
    (rest : List (String × Nat)) (visited : List String) (acc : List (String × Rat))
    (hsk : visited.contains u = true ∨ maxDepth < d) :
    bfsAux g maxDepth (fuel + 1) ((u, d) :: rest) visited acc =
      bfsAux g maxDepth fuel rest visited acc := by
  simp only [bfsAux]
  rw [if_pos hsk]

lemma bfsAux_visit_step (g : Graph) (maxDepth fuel : Nat) (u : String) (d : Nat)
    (rest : List (String × Nat)) (visited : List String) (acc : List (String × Rat))
    (hnv : ¬ (visited.contains u = true ∨ maxDepth < d)) :
    bfsAux g maxDepth (fuel + 1) ((u, d) :: rest) visited acc =
      bfsAux g maxDepth fuel
        (rest ++ ((if d < maxDepth then
            (g.successors u).filter (fun n => ¬ ((u :: visited).contains n = true))
          else []).map (fun n => (n, d + 1))))
        (u :: visited)
        (acc ++ [(u, (1 : Rat) / ((d : Rat) + 1))]) := by
  simp only [bfsAux]
  rw [if_neg hnv]

lemma relatedAux_zero (g : Graph) (maxDepth : Nat) (seed : String)
    (queue : List (String × Nat)) (visited acc : List String) :
    relatedAux g maxDepth seed 0 queue visited acc = acc := by
  simp [relatedAux]

lemma relatedAux_nil (g : Graph) (maxDepth : Nat) (seed : String) (fuel : Nat)
    (visited acc : List String) :
    relatedAux g maxDepth seed (fuel + 1) [] visited acc = acc := by
  simp [relatedAux]

lemma relatedAux_visit_step (g : Graph) (maxDepth : Nat) (seed : String) (fuel : Nat)
    (u : String) (d : Nat) (rest : List (String × Nat)) (visited acc : List String)
    (hnv : ¬ (visited.contains u = true ∨ maxDepth < d)) :
    relatedAux g maxDepth seed (fuel + 1) ((u, d) :: rest) visited acc =
      relatedAux g maxDepth seed fuel
        (rest ++ ((if d < maxDepth then
            (g.successors u).filter (fun n => ¬ ((u :: visited).contains n = true))
          else []).map (fun n => (n, d + 1))))
        (u :: visited)
        (if u ≠ seed then acc ++ [u] else acc) := by
  simp only [relatedAux]
  rw [if_neg hnv]

lemma reachable_self (g : Graph) (d : Nat) (src : String) :
    reachableWithin g d src src = true := by
  cases d <;> simp [reachableWithin]

lemma reachable_step (g : Graph) (d : Nat) :
    ∀ (seed u n : String), reachableWithin g d seed u = true →
      n ∈ g.successors u → reachableWithin g (d + 1) seed n = true := by
  induction d with
  | zero =>
    intro seed u n hr hn
    have hsu : seed = u := by simpa [reachableWithin] using hr
    subst hsu
    simp only [reachableWithin, Bool.or_eq_true, List.any_eq_true]
    exact Or.inr ⟨n, hn, by simp [reachableWithin]⟩
  | succ d ih =>
    intro seed u n hr hn
    simp only [reachableWithin, Bool.or_eq_true, List.any_eq_true] at hr
    rcases hr with hr | ⟨m, hm, hrm⟩
    · have hsu : seed = u := by simpa using hr
      subst hsu
      simp only [reachableWithin, Bool.or_eq_true, List.any_eq_true]
      exact Or.inr ⟨n, hn, Or.inl (by simp)⟩
    · simp only [reachableWithin, Bool.or_eq_true, List.any_eq_true]
      have h2 := ih m u n hrm hn
      simp only [reachableWithin, Bool.or_eq_true, List.any_eq_true] at h2
      exact Or.inr ⟨m, hm, h2⟩

lemma bfsAux_append (g : Graph) (maxDepth : Nat) :
    ∀ (fuel : Nat) (queue : List (String × Nat)) (visited : List String)
      (acc : List (String × Rat)),
      ∃ ext, bfsAux g maxDepth fuel queue visited acc = acc ++ ext := by
  intro fuel
  induction fuel with
  | zero =>
    intro queue visited acc
    exact ⟨[], by rw [bfsAux_zero, List.append_nil]⟩
  | succ fuel ih =>
    intro queue visited acc
    cases queue with
    | nil => exact ⟨[], by rw [bfsAux_nil, List.append_nil]⟩
    | cons hd rest =>
      obtain ⟨u, d⟩ := hd
      by_cases hsk : visited.contains u = true ∨ maxDepth < d
      · rw [bfsAux_skip_step g maxDepth fuel u d rest visited acc hsk]
        exact ih rest visited acc
      · rw [bfsAux_visit_step g maxDepth fuel u d rest visited acc hsk]
        obtain ⟨ext, hext⟩ := ih _ _ _
        exact ⟨(u, (1 : Rat) / ((d : Rat) + 1)) :: ext, by rw [hext]; simp⟩

/-- BFS soundness invariant: whatever the fuel, the records produced
are duplicate-free in their ids, and each carries score `1/(d+1)` for
a depth `d ≤ maxDepth` at which its node is reachable from the seed
along outgoing edges. -/
lemma bfsAux_sound (g : Graph) (maxDepth : Nat) (seed : String) :
    ∀ (fuel : Nat) (queue : List (String × Nat)) (visited : List String)
      (acc : List (String × Rat)),
      (∀ q ∈ queue, reachableWithin g q.2 seed q.1 = true ∧ q.2 ≤ maxDepth) →
      ((acc.map Prod.fst).Nodup) →
      (∀ id ∈ acc.map Prod.fst, id ∈ visited) →
      (∀ p ∈ acc, ∃ d, d ≤ maxDepth ∧ p.2 = (1 : Rat) / ((d : Rat) + 1) ∧
          reachableWithin g d seed p.1 = true) →
      (((bfsAux g maxDepth fuel queue visited acc).map Prod.fst).Nodup ∧
       (∀ p ∈ bfsAux g maxDepth fuel queue visited acc,
          ∃ d, d ≤ maxDepth ∧ p.2 = (1 : Rat) / ((d : Rat) + 1) ∧
            reachableWithin g d seed p.1 = true)) := by
  intro fuel
  induction fuel with
  | zero =>
    intro queue visited acc _ hnd _ hrec
    rw [bfsAux_zero]
    exact ⟨hnd, hrec⟩
  | succ fuel ih =>
    intro queue visited acc hq hnd hsub hrec
    cases queue with
    | nil =>
      rw [bfsAux_nil]
      exact ⟨hnd, hrec⟩
    | cons hd rest =>
      obtain ⟨u, d⟩ := hd
      by_cases hsk : visited.contains u = true ∨ maxDepth < d
      · rw [bfsAux_skip_step g maxDepth fuel u d rest visited acc hsk]
        exact ih rest visited acc
          (fun q hq2 => hq q (List.mem_cons_of_mem _ hq2)) hnd hsub hrec
      · rw [bfsAux_visit_step g maxDepth fuel u d rest visited acc hsk]
        have hu_not_vis : u ∉ visited := fun hmem => hsk (Or.inl (scontains_iff.mpr hmem))
        have hd_le : d ≤ maxDepth := by
          by_contra hc
          exact hsk (Or.inr (by omega))
        refine ih _ _ _ ?_ ?_ ?_ ?_
        · intro q hq2
          rcases List.mem_append.mp hq2 with hq2 | hq2
          · exact hq q (List.mem_cons_of_mem _ hq2)
          · rcases List.mem_map.mp hq2 with ⟨n, hn, rfl⟩
            by_cases hdlt : d < maxDepth
            · rw [if_pos hdlt] at hn
              have hnsucc : n ∈ g.successors u := List.mem_of_mem_filter hn
              have hreach := reachable_step g d seed u n
                (hq (u, d) (List.mem_cons_self _ _)).1 hnsucc
              exact ⟨hreach, by omega⟩
            · rw [if_neg hdlt] at hn
              simp at hn
        · rw [List.map_append]
          refine List.Nodup.append hnd (by simp) ?_
          intro a ha ha2
          have hau : a = u := by simpa using ha2
          subst hau
          exact hu_not_vis (hsub a ha)
        · intro id hid
          rw [List.map_append] at hid
          rcases List.mem_append.mp hid with hid | hid
          · exact List.mem_cons_of_mem u (hsub id hid)
          · have : id = u := by simpa using hid
            subst this
            exact List.mem_cons_self _ _
        · intro p hp
          rcases List.mem_append.mp hp with hp | hp
          · exact hrec p hp
          · have hpu : p = (u, (1 : Rat) / ((d : Rat) + 1)) := by simpa using hp
            subst hpu
            exact ⟨d, hd_le, rfl, (hq (u, d) (List.mem_cons_self _ _)).1⟩

lemma bfsFuel_ge_four (g : Graph) : 4 ≤ bfsFuel g := by
  unfold bfsFuel
  calc 4 = 2 * 2 := rfl
  _ ≤ (g.edges.length + 2) * (g.edges.length + 2) :=
      Nat.mul_le_mul (by omega) (by omega)

lemma bfsFuel_split (g : Graph) : ∃ k, bfsFuel g = k + 2 :=
  ⟨bfsFuel g - 2, by have := bfsFuel_ge_four g; omega⟩

lemma score_zero_depth : (1 : Rat) / (((0 : Nat) : Rat) + 1) = 1 := by norm_num

lemma graph_search_head (g : Graph) (seed : String) (maxDepth : Nat)
    (h : g.hasNode seed) :
    ∃ ext, graph_search g seed maxDepth = (seed, (1 : Rat)) :: ext := by
  unfold graph_search
  rw [if_pos h]
  obtain ⟨k, hk⟩ := bfsFuel_split g
  rw [hk]
  rw [bfsAux_visit_step g maxDepth (k + 1) seed 0 [] [] [] (by simp)]
  obtain ⟨ext, hext⟩ := bfsAux_append g maxDepth (k + 1) _ _ _
  rw [hext, score_zero_depth]
  exact ⟨ext, by simp⟩

lemma graph_search_no_successors (g : Graph) (seed : String) (maxDepth : Nat)
    (h : g.hasNode seed) (hsucc : g.successors seed = []) :
    graph_search g seed maxDepth = [(seed, (1 : Rat))] := by
  unfold graph_search
  rw [if_pos h]
  obtain ⟨k, hk⟩ := bfsFuel_split g
  rw [hk]
  rw [bfsAux_visit_step g maxDepth (k + 1) seed 0 [] [] [] (by simp)]
  rw [show ([] ++ ((if 0 < maxDepth then
      (g.successors seed).filter (fun n => ¬ (([seed] : List String).contains n = true))
    else []).map (fun n => (n, 0 + 1)))) = ([] : List (String × Nat)) from by
    simp [hsucc]]
  rw [bfsAux_nil, score_zero_depth]
  simp

lemma get_related_skills_no_successors (g : Graph) (seed : String) (maxDepth : Nat)
    (mgr : Option (String → Option Skill)) (h : g.hasNode seed)
    (hsucc : g.successors seed = []) :
    get_related_skills g mgr seed maxDepth = [] := by
  unfold get_related_skills
  rw [if_pos h]
  cases mgr with
  | none => rfl
  | some load =>
    have hrel : relatedAux g maxDepth seed (bfsFuel g) [(seed, 0)] [] [] = [] := by
      obtain ⟨k, hk⟩ := bfsFuel_split g
      rw [hk]
      rw [relatedAux_visit_step g maxDepth seed (k + 1) seed 0 [] [] [] (by simp)]
      rw [show ([] ++ ((if 0 < maxDepth then
          (g.successors seed).filter (fun n => ¬ (([seed] : List String).contains n = true))
        else []).map (fun n => (n, 0 + 1)))) = ([] : List (String × Nat)) from by
        simp [hsucc]]
      rw [relatedAux_nil]
      simp
    rw [hrel]
    rfl

/-- Claim C6: the graph phase is a visited-set BFS over outgoing edges
only.  With the seed a graph node: the seed's own record `(seed, 1)`
(depth 0) comes first; no node id is recorded twice; every record
carries score `1/(d+1)` for a first-seen depth `d ≤ maxDepth` at which
the node is reachable from the seed along outgoing edges; a seed with
no outgoing edges yields exactly its own record in `_graph_search`,
while `get_related_skills` excludes the seed and so returns the empty
list for such a seed (for every collaborator). -/
theorem c6_graph_search_bfs_semantics (g : Graph) (seed : String) (maxDepth : Nat)
    (h : g.hasNode seed) :
    ((graph_search g seed maxDepth).head? = some (seed, (1 : Rat))) ∧
    (((graph_search g seed maxDepth).map Prod.fst).Nodup) ∧
    (∀ p ∈ graph_search g seed maxDepth,
      ∃ d, d ≤ maxDepth ∧ p.2 = (1 : Rat) / ((d : Rat) + 1) ∧
        reachableWithin g d seed p.1 = true) ∧
    (g.successors seed = [] → graph_search g seed maxDepth = [(seed, (1 : Rat))]) ∧
    (g.successors seed = [] →
      ∀ mgr : Option (String → Option Skill),
        get_related_skills g mgr seed maxDepth = []) := by
  have hsound := bfsAux_sound g maxDepth seed (bfsFuel g) [(seed, 0)] [] []
    (by
      intro q hq
      rcases List.mem_singleton.mp hq with rfl
      exact ⟨by simp [reachableWithin], Nat.zero_le _⟩)
    (by simp) (by simp) (by simp)
  have hgs : graph_search g seed maxDepth = bfsAux g maxDepth (bfsFuel g) [(seed, 0)] [] [] := by
    unfold graph_search
    rw [if_pos h]
  refine ⟨?_, ?_, ?_, ?_, ?_⟩
  · obtain ⟨ext, hext⟩ := graph_search_head g seed maxDepth h
    rw [hext]
    rfl
  · rw [hgs]
    exact hsound.1
  · rw [hgs]
    exact hsound.2
  · intro hsucc
    exact graph_search_no_successors g seed maxDepth h hsucc
  · intro hsucc mgr
    exact get_related_skills_no_successors g seed maxDepth mgr h hsucc

/-- Witness for C6 at the three-skill fixture graph with seed `A`,
which has no outgoing edges. -/
theorem c6_graph_search_bfs_semantics_witness :
    st3.graph.hasNode "A" ∧
    (((graph_search st3.graph "A" 2).head? = some ("A", (1 : Rat))) ∧
     (((graph_search st3.graph "A" 2).map Prod.fst).Nodup) ∧
     (∀ p ∈ graph_search st3.graph "A" 2,
       ∃ d : Nat, d ≤ 2 ∧ p.2 = (1 : Rat) / ((d : Rat) + 1) ∧
         reachableWithin st3.graph d "A" p.1 = true) ∧
     (st3.graph.successors "A" = [] → graph_search st3.graph "A" 2 = [("A", (1 : Rat))]) ∧
     (st3.graph.successors "A" = [] →
       ∀ mgr : Option (String → Option Skill),
         get_related_skills st3.graph mgr "A" 2 = [])) :=
  ⟨by decide, c6_graph_search_bfs_semantics st3.graph "A" 2 (by decide)⟩

end MCPSkills
